import Mathlib

/-
Verification of the picca correlation-function and delta-extraction code.

This file shallowly embeds the parts of the repository that the checked
properties talk about:
  * bin/do_cf.py                   (correlation-function driver: preprocessing,
                                    parallel dispatch, reduction, output tables)
  * py/picca/delta_extraction/data.py            (Data: config, filtering, nside search)
  * py/picca/delta_extraction/data_catalogues/desi_data.py (DesiData: config, sanitization)

Machine floats are modelled by the type Fl below: exact rationals for finite
values, plus explicit NaN and signed-infinity constructors with IEEE-754
propagation rules for the operations the code uses (numpy never raises on
division by zero; it produces inf or NaN).  Exact rational arithmetic stands
in for rounding, which none of the checked properties depends on.
-/

/-- Model of a numpy floating-point scalar: NaN, signed infinity, or a finite
value represented exactly as a rational. -/
inductive Fl where
  | nan : Fl
  | inf : Bool → Fl
  | val : ℚ → Fl
deriving DecidableEq, Repr

namespace Fl

/-- Sign of a finite nonzero rational, true = positive. -/
def qsign (a : ℚ) : Bool := decide (0 < a)

/-- IEEE addition: NaN propagates, opposite infinities give NaN. -/
def fadd : Fl → Fl → Fl
  | nan, _ => nan
  | _, nan => nan
  | inf s, inf t => if s = t then inf s else nan
  | inf s, val _ => inf s
  | val _, inf t => inf t
  | val a, val b => val (a + b)

/-- IEEE multiplication: NaN propagates, infinity times zero gives NaN. -/
def fmul : Fl → Fl → Fl
  | nan, _ => nan
  | _, nan => nan
  | inf s, inf t => inf (s = t)
  | inf s, val a => if a = 0 then nan else inf (s = qsign a)
  | val a, inf t => if a = 0 then nan else inf (t = qsign a)
  | val a, val b => val (a * b)

/-- IEEE division: NaN propagates, 0/0 gives NaN, x/0 gives signed infinity
for finite nonzero x, finite/infinity gives 0.  numpy emits a runtime warning
in the zero-divisor cases but never raises. -/
def fdiv : Fl → Fl → Fl
  | nan, _ => nan
  | _, nan => nan
  | inf s, inf _ => if s then nan else nan
  | inf s, val a => if a = 0 then inf s else inf (s = qsign a)
  | val _, inf _ => val 0
  | val a, val b =>
      if b = 0 then (if a = 0 then nan else inf (qsign a)) else val (a / b)

/-- np.isnan on a scalar. -/
def isnan : Fl → Bool
  | nan => true
  | _ => false

/-- numpy sum of a 1-d array (left fold from 0; with exact rationals the
result does not depend on numpy's pairwise association). -/
def fsum (l : List Fl) : Fl := l.foldl fadd (val 0)

end Fl

open Fl

/-! ## bin/do_cf.py : worker-pool size (claim C8)

Source (do_cf.py lines 72-73 and 131):
    if args.nproc is None:
        args.nproc = cpu_count()/2
    ...
    pool = Pool(processes=args.nproc)
The script runs under Python 2, where `/` on two ints is floor division. -/

/-- do_cf.py lines 72-73: the number of processes used when the user passes
`--nproc n` (some n) or omits it (none).  `cpu_count()/2` is Python 2 integer
division, i.e. Nat floor division. -/
def resolve_nproc (userNproc : Option ℕ) (cpuCount : ℕ) : ℕ :=
  match userNproc with
  | some n => n
  | none => cpuCount / 2

/-- do_cf.py line 131: the pool is constructed with `processes=args.nproc`. -/
def pool_size (userNproc : Option ℕ) (cpuCount : ℕ) : ℕ :=
  resolve_nproc userNproc cpuCount

/-! ## bin/do_cf.py : maximum transverse angle (claim C4)

Source (do_cf.py lines 83-85):
    cosmo = constants.cosmo(args.fid_Om)
    cf.angmax = sp.arcsin(cf.rt_max/cosmo.r_comoving(constants.boss_lambda_min/args.lambda_abs-1))
The cosmology object (pylya.constants, not under src/) only enters through its
comoving-distance function, kept abstract as a parameter `rComoving`;
`boss_lambda_min` is an abstract constant of the same module. -/

/-- do_cf.py line 85: the value assigned to `cf.angmax`, with the external
comoving-distance function of the cosmology as a parameter. -/
noncomputable def cf_angmax (rtMax bossLambdaMin lambdaAbs : ℝ)
    (rComoving : ℝ → ℝ) : ℝ :=
  Real.arcsin (rtMax / rComoving (bossLambdaMin / lambdaAbs - 1))

/-- The survey minimum redshift as the claim words it:
z_min = boss_lambda_min / lambda_abs - 1. -/
noncomputable def claim_zmin (bossLambdaMin lambdaAbs : ℝ) : ℝ :=
  bossLambdaMin / lambdaAbs - 1

/-- The claimed formula for the maximum transverse angle:
arcsin(rt_max / comoving_distance(z_min)). -/
noncomputable def claim_angmax (rtMax bossLambdaMin lambdaAbs : ℝ)
    (rComoving : ℝ → ℝ) : ℝ :=
  Real.arcsin (rtMax / rComoving (claim_zmin bossLambdaMin lambdaAbs))

/-- Claim C8 counterexample: on a machine with 8 CPUs and no user-supplied
`--nproc`, the pool is created with 4 processes, not 8 as the claim states. -/
theorem pool_size_auto_not_cpu_count : ¬ (pool_size none 8 = 8) := by
  decide

/-- Claim C8 (amended): when `--nproc` is not given, the pool size is half the
hardware concurrency, rounded down (Python 2 integer division), hence never
exceeds half the CPU count. -/
theorem pool_size_auto_half (cpuCount : ℕ) :
    pool_size none cpuCount = cpuCount / 2 ∧ 2 * pool_size none cpuCount ≤ cpuCount := by
  refine ⟨rfl, ?_⟩
  have h := Nat.div_mul_le_self cpuCount 2
  simpa [pool_size, resolve_nproc, Nat.mul_comm] using h

/-- Claim C4: the angle assigned to `cf.angmax` equals
arcsin(rt_max / comoving_distance(z_min)) with z_min = boss_lambda_min / lambda_abs - 1,
for every binning configuration and every comoving-distance function. -/
theorem cf_angmax_eq_claim (rtMax bossLambdaMin lambdaAbs : ℝ)
    (rComoving : ℝ → ℝ) :
    cf_angmax rtMax bossLambdaMin lambdaAbs rComoving =
      claim_angmax rtMax bossLambdaMin lambdaAbs rComoving := by
  rfl

/-! ## bin/do_cf.py : parallel reduction and output (claims C1, C2, C3)

Source (do_cf.py lines 127-156):
    cpu_data = {}
    for p in data.keys():
        cpu_data[p] = [p]
    pool = Pool(processes=args.nproc)
    cfs = pool.map(corr_func,cpu_data.values())
    ...
    cfs=sp.array(cfs)
    wes=cfs[:,0,:]
    rps=cfs[:,2,:]
    rts=cfs[:,3,:]
    zs=cfs[:,4,:]
    cfs=cfs[:,1,:]
    rp = (rps*wes).sum(axis=0)/wes.sum(axis=0)
    rt = (rts*wes).sum(axis=0)/wes.sum(axis=0)
    z = (zs*wes).sum(axis=0)/wes.sum(axis=0)
    ...
    out.write([rp,rt,z],names=['RP','RT','Z'],header=head)
    out.write([wes,cfs],names=['WE','DA'])
The per-cell worker pylya.cf.cf is not under src/; each task returns a
5 x nbins array, sliced above into rows we, da(=cf), rp, rt, z. -/

/-- The array returned by one per-cell task, as sliced by do_cf.py lines
137-141: row 0 = we, row 1 = da (correlation), rows 2-4 = rp, rt, z. -/
structure CellResult where
  we : List Fl
  da : List Fl
  rp : List Fl
  rt : List Fl
  z : List Fl
deriving DecidableEq, Repr

/-- numpy elementwise product of two rows. -/
def ewMul (xs ys : List Fl) : List Fl := List.zipWith fmul xs ys

/-- numpy elementwise division of two rows. -/
def ewDiv (xs ys : List Fl) : List Fl := List.zipWith fdiv xs ys

/-- numpy `.sum(axis=0)` over a stack of equal-length rows. -/
def sumAxis0 (rows : List (List Fl)) (nbins : ℕ) : List Fl :=
  rows.foldl (fun acc row => List.zipWith fadd acc row) (List.replicate nbins (val 0))

/-- do_cf.py lines 143-145, shared shape of the three statements:
`(sels*wes).sum(axis=0)/wes.sum(axis=0)` for sel one of rps, rts, zs. -/
def reduce_mean (sel : CellResult → List Fl) (rs : List CellResult) (nbins : ℕ) : List Fl :=
  ewDiv (sumAxis0 (rs.map fun r => ewMul (sel r) r.we) nbins)
        (sumAxis0 (rs.map CellResult.we) nbins)

/-- do_cf.py line 143: the RP column of the first output table. -/
def do_cf_rp (rs : List CellResult) (nbins : ℕ) : List Fl := reduce_mean CellResult.rp rs nbins

/-- do_cf.py line 144: the RT column of the first output table. -/
def do_cf_rt (rs : List CellResult) (nbins : ℕ) : List Fl := reduce_mean CellResult.rt rs nbins

/-- do_cf.py line 145: the Z column of the first output table. -/
def do_cf_z (rs : List CellResult) (nbins : ℕ) : List Fl := reduce_mean CellResult.z rs nbins

/-- do_cf.py line 155: the second output table `out.write([wes,cfs],names=['WE','DA'])`.
Both columns are the stacked per-cell arrays, one row per spatial cell. -/
def do_cf_table2 (rs : List CellResult) : List (List Fl) × List (List Fl) :=
  (rs.map CellResult.we, rs.map CellResult.da)

/-- Modelled from the spec: pylya.cf.cf is not under src/.  Per spec sections
3 and 4.1 a per-cell accumulator array holds, for each bin, the plain sums of
weight, weight times delta-product, etc., so the column sum across cells of a
selected row is the global accumulated sum for that bin. -/
def colSum (sel : CellResult → List Fl) (rs : List CellResult) (b : ℕ) : Fl :=
  fsum (rs.map fun r => (sel r).getD b (val 0))

/-- The summed-weight table column claimed by C1: per bin, the weight summed
over all cells. -/
def claim_summed_we (rs : List CellResult) (nbins : ℕ) : List Fl :=
  (List.range nbins).map fun b => colSum CellResult.we rs b

/-- The normalized correlation claimed by C1: per bin, (sum over cells of
weight times delta-product) divided by (sum over cells of weight). -/
def claim_norm_da (rs : List CellResult) (nbins : ℕ) : List Fl :=
  (List.range nbins).map fun b =>
    fdiv (colSum CellResult.da rs b) (colSum CellResult.we rs b)

/-- Claim C1 formalized as stated: the persisted second table holds the summed
weight column and the normalized correlation column (one row each). -/
def c1_claim_prop (rs : List CellResult) (nbins : ℕ) : Prop :=
  do_cf_table2 rs = ([claim_summed_we rs nbins], [claim_norm_da rs nbins])

/-- A concrete pair of per-cell task results with a single bin. -/
def exCells : List CellResult :=
  [⟨[val 1], [val 1], [val 2], [val 3], [val 4]⟩,
   ⟨[val 3], [val 5], [val 6], [val 7], [val 8]⟩]

/-- Claim C1 counterexample: with two populated cells, the second table written
by do_cf.py keeps one row per cell (weights [1] and [3], correlations [1] and
[5]); it is not the claimed pair of a summed-weight row [4] and a normalized
correlation row [6/4]. -/
theorem do_cf_table2_not_normalized : ¬ c1_claim_prop exCells 1 := by
  unfold c1_claim_prop
  intro h
  have h1 := congrArg (fun p => p.1.length) h
  simp [do_cf_table2, exCells] at h1

/-! ### Pointwise characterization of the numpy reduction -/

/-- Indexing an elementwise numpy operation: in-range bins combine pointwise. -/
theorem zipWith_getD_of_lt {γ δ ε : Type} (f : γ → δ → ε) (d1 : γ) (d2 : δ) (d3 : ε)
    (xs : List γ) (ys : List δ) (b : ℕ)
    (hx : b < xs.length) (hy : b < ys.length) :
    (List.zipWith f xs ys).getD b d3 = f (xs.getD b d1) (ys.getD b d2) := by
  have hz : b < (List.zipWith f xs ys).length := by
    simpa [List.length_zipWith, lt_min_iff] using And.intro hx hy
  rw [List.getD_eq_getElem _ _ hz, List.getD_eq_getElem _ _ hx, List.getD_eq_getElem _ _ hy,
    List.getElem_zipWith]

/-- The row-stack fold keeps the row length. -/
theorem foldl_zipWith_length (rows : List (List Fl)) (acc : List Fl) (nbins : ℕ)
    (hacc : acc.length = nbins) (hrows : ∀ row ∈ rows, row.length = nbins) :
    (rows.foldl (fun a row => List.zipWith fadd a row) acc).length = nbins := by
  induction rows generalizing acc with
  | nil => simpa using hacc
  | cons r t ih =>
      simp only [List.foldl_cons]
      refine ih _ ?_ (fun row hr => hrows row (by simp [hr]))
      simp [List.length_zipWith, hacc, hrows r (by simp)]

/-- The row-stack fold computed binwise: summing rows then reading bin b is
folding the bin-b entries. -/
theorem foldl_zipWith_getD (rows : List (List Fl)) (acc : List Fl) (nbins b : ℕ)
    (hb : b < nbins) (hacc : acc.length = nbins) (hrows : ∀ row ∈ rows, row.length = nbins) :
    (rows.foldl (fun a row => List.zipWith fadd a row) acc).getD b (val 0)
      = rows.foldl (fun x row => fadd x (row.getD b (val 0))) (acc.getD b (val 0)) := by
  induction rows generalizing acc with
  | nil => simp
  | cons r t ih =>
      simp only [List.foldl_cons]
      rw [ih (List.zipWith fadd acc r)
            (by simp [List.length_zipWith, hacc, hrows r (by simp)])
            (fun row hr => hrows row (by simp [hr])),
        zipWith_getD_of_lt fadd (val 0) (val 0) (val 0) acc r b (by omega)
          (by rw [hrows r (by simp)]; exact hb)]

/-- numpy `.sum(axis=0)` read at an in-range bin is the scalar sum of the
per-row entries at that bin. -/
theorem sumAxis0_getD (rows : List (List Fl)) (nbins b : ℕ) (hb : b < nbins)
    (hrows : ∀ row ∈ rows, row.length = nbins) :
    (sumAxis0 rows nbins).getD b (val 0) = fsum (rows.map fun row => row.getD b (val 0)) := by
  unfold sumAxis0 fsum
  rw [foldl_zipWith_getD rows _ nbins b hb (by simp) hrows, List.foldl_map]
  have hrep : (List.replicate nbins (val 0 : Fl)).getD b (val 0) = val 0 := by
    rw [List.getD_eq_getElem _ _ (by simpa using hb)]
    simp
  rw [hrep]

/-- numpy `.sum(axis=0)` yields a row of the common length. -/
theorem sumAxis0_length (rows : List (List Fl)) (nbins : ℕ)
    (hrows : ∀ row ∈ rows, row.length = nbins) :
    (sumAxis0 rows nbins).length = nbins :=
  foldl_zipWith_length rows _ nbins (by simp) hrows

/-- The reduction statement of do_cf.py lines 143-145 read at an in-range bin:
`((sels*wes).sum(axis=0)/wes.sum(axis=0))[b]` is the scalar quotient of the
weighted sum of the per-cell entries by the summed weight. -/
theorem reduce_mean_getD (sel : CellResult → List Fl) (rs : List CellResult)
    (nbins b : ℕ) (hb : b < nbins)
    (hsel : ∀ r ∈ rs, (sel r).length = nbins) (hwe : ∀ r ∈ rs, r.we.length = nbins) :
    (reduce_mean sel rs nbins).getD b (val 0)
      = fdiv (fsum (rs.map fun r => fmul ((sel r).getD b (val 0)) (r.we.getD b (val 0))))
             (fsum (rs.map fun r => r.we.getD b (val 0))) := by
  have hnumrows : ∀ row ∈ rs.map fun r => ewMul (sel r) r.we, row.length = nbins := by
    intro row hrow
    obtain ⟨r, hr, rfl⟩ := List.mem_map.mp hrow
    simp [ewMul, List.length_zipWith, hsel r hr, hwe r hr]
  have hdenrows : ∀ row ∈ rs.map CellResult.we, row.length = nbins := by
    intro row hrow
    obtain ⟨r, hr, rfl⟩ := List.mem_map.mp hrow
    exact hwe r hr
  unfold reduce_mean ewDiv
  rw [zipWith_getD_of_lt fdiv (val 0) (val 0) (val 0) _ _ b
      (by rw [sumAxis0_length _ _ hnumrows]; exact hb)
      (by rw [sumAxis0_length _ _ hdenrows]; exact hb),
    sumAxis0_getD _ _ _ hb hnumrows, sumAxis0_getD _ _ _ hb hdenrows,
    List.map_map, List.map_map]
  congr 1
  · congr 1
    refine List.map_congr_left ?_
    intro r hr
    exact zipWith_getD_of_lt fmul (val 0) (val 0) (val 0) (sel r) r.we b
      (by rw [hsel r hr]; exact hb) (by rw [hwe r hr]; exact hb)

/-- Claim C1 (amended): after all per-cell tasks complete, do_cf.py normalizes
only the auxiliary statistics: at every in-range bin, the final mean parallel
separation, mean transverse separation and mean redshift each equal the sum
over cells of (per-cell value times per-cell weight) divided by the sum over
cells of the per-cell weight; the correlation values are never summed or
normalized across cells, and the persisted second table holds the per-cell
weight rows and per-cell correlation rows, one row per cell. -/
theorem do_cf_reduction_characterization (rs : List CellResult) (nbins b : ℕ)
    (hb : b < nbins)
    (hlen : ∀ r ∈ rs, r.we.length = nbins ∧ r.rp.length = nbins ∧
      r.rt.length = nbins ∧ r.z.length = nbins) :
    (do_cf_rp rs nbins).getD b (val 0)
        = fdiv (fsum (rs.map fun r => fmul (r.rp.getD b (val 0)) (r.we.getD b (val 0))))
               (fsum (rs.map fun r => r.we.getD b (val 0)))
    ∧ (do_cf_rt rs nbins).getD b (val 0)
        = fdiv (fsum (rs.map fun r => fmul (r.rt.getD b (val 0)) (r.we.getD b (val 0))))
               (fsum (rs.map fun r => r.we.getD b (val 0)))
    ∧ (do_cf_z rs nbins).getD b (val 0)
        = fdiv (fsum (rs.map fun r => fmul (r.z.getD b (val 0)) (r.we.getD b (val 0))))
               (fsum (rs.map fun r => r.we.getD b (val 0)))
    ∧ do_cf_table2 rs = (rs.map CellResult.we, rs.map CellResult.da) := by
  have hwe : ∀ r ∈ rs, r.we.length = nbins := fun r hr => (hlen r hr).1
  refine ⟨?_, ?_, ?_, rfl⟩
  · exact reduce_mean_getD CellResult.rp rs nbins b hb (fun r hr => (hlen r hr).2.1) hwe
  · exact reduce_mean_getD CellResult.rt rs nbins b hb (fun r hr => (hlen r hr).2.2.1) hwe
  · exact reduce_mean_getD CellResult.z rs nbins b hb (fun r hr => (hlen r hr).2.2.2) hwe

/-- Witness for the amended C1 on the concrete two-cell input. -/
theorem do_cf_reduction_characterization_witness :
    (do_cf_rp exCells 1).getD 0 (val 0)
      = fdiv (fsum (exCells.map fun r => fmul (r.rp.getD 0 (val 0)) (r.we.getD 0 (val 0))))
             (fsum (exCells.map fun r => r.we.getD 0 (val 0))) :=
  (do_cf_reduction_characterization exCells 1 0 (by decide) (by decide)).1

/-! ### Zero-weight bins (claim C3) -/

/-- Summing a row of finite values is rational addition. -/
theorem foldl_fadd_val (qs : List ℚ) (a : ℚ) :
    (qs.map val).foldl fadd (val a) = val (a + qs.sum) := by
  induction qs generalizing a with
  | nil => simp
  | cons q t ih =>
      simp only [List.map_cons, List.foldl_cons, List.sum_cons]
      rw [show fadd (val a) (val q) = val (a + q) from rfl, ih]
      ring_nf

/-- A nonnegative list of rationals with zero sum is all zeros. -/
theorem eq_zero_of_sum_zero_of_nonneg (qs : List ℚ) (h : ∀ q ∈ qs, 0 ≤ q)
    (hs : qs.sum = 0) : ∀ q ∈ qs, q = 0 := by
  induction qs with
  | nil => simp
  | cons a t ih =>
      have ha : 0 ≤ a := h a (by simp)
      have ht : 0 ≤ t.sum := List.sum_nonneg (fun q hq => h q (by simp [hq]))
      have hsum : a + t.sum = 0 := by simpa using hs
      have ha0 : a = 0 := le_antisymm (by linarith) ha
      have ht0 : t.sum = 0 := by linarith
      intro q hq
      rcases List.mem_cons.mp hq with rfl | hq
      · exact ha0
      · exact ih (fun x hx => h x (by simp [hx])) ht0 q hq

/-- Finite nonnegative floats are images of a nonnegative rational list. -/
theorem all_val_encode (ws : List Fl)
    (h : ∀ x ∈ ws, ∃ q : ℚ, 0 ≤ q ∧ x = val q) :
    ∃ qs : List ℚ, ws = qs.map val ∧ ∀ q ∈ qs, 0 ≤ q := by
  induction ws with
  | nil => exact ⟨[], rfl, by simp⟩
  | cons y u ihu =>
      obtain ⟨q, hq0, hy⟩ := h y (by simp)
      obtain ⟨qs, hqs, hqs0⟩ := ihu (fun z hz => h z (by simp [hz]))
      refine ⟨q :: qs, by simp [hy, hqs], ?_⟩
      intro p hp
      rcases List.mem_cons.mp hp with rfl | hp
      · exact hq0
      · exact hqs0 p hp

/-- A list of weights that are all finite and nonnegative with numpy sum zero
consists of exact zeros. -/
theorem weights_all_zero (ws : List Fl)
    (h : ∀ x ∈ ws, ∃ q : ℚ, 0 ≤ q ∧ x = val q) (hz : fsum ws = val 0) :
    ∀ x ∈ ws, x = val 0 := by
  obtain ⟨qs, hmap, hnn⟩ := all_val_encode ws h
  subst hmap
  unfold fsum at hz
  rw [foldl_fadd_val qs 0, zero_add] at hz
  have hsum0 : qs.sum = 0 := by injection hz
  intro y hy
  obtain ⟨q, hq, rfl⟩ := List.mem_map.mp hy
  rw [eq_zero_of_sum_zero_of_nonneg qs hnn hsum0 q hq]

/-- Multiplying any float by an exact zero gives zero or NaN (NaN for NaN or
infinite operands, per IEEE). -/
theorem fmul_val_zero (x : Fl) : fmul x (val 0) = val 0 ∨ fmul x (val 0) = Fl.nan := by
  cases x with
  | nan => exact Or.inr rfl
  | inf s => exact Or.inr (by simp [fmul])
  | val a => exact Or.inl (by simp [fmul])

/-- numpy sum of a list whose entries are all 0 or NaN is 0 or NaN. -/
theorem fsum_zero_or_nan (l : List Fl) (h : ∀ x ∈ l, x = val 0 ∨ x = Fl.nan) :
    fsum l = val 0 ∨ fsum l = Fl.nan := by
  unfold fsum
  have haux : ∀ acc : Fl, acc = val 0 ∨ acc = Fl.nan →
      l.foldl fadd acc = val 0 ∨ l.foldl fadd acc = Fl.nan := by
    induction l with
    | nil => intro acc hacc; simpa using hacc
    | cons x t ih =>
        intro acc hacc
        simp only [List.foldl_cons]
        refine ih (fun y hy => h y (by simp [hy])) (fadd acc x) ?_
        rcases hacc with rfl | rfl
        · rcases h x (by simp) with rfl | rfl
          · exact Or.inl (by simp [fadd])
          · exact Or.inr rfl
        · exact Or.inr (by cases x <;> rfl)
  exact haux (val 0) (Or.inl rfl)

/-- Dividing zero or NaN by an exact zero gives NaN. -/
theorem fdiv_zero_zero (x : Fl) (hx : x = val 0 ∨ x = Fl.nan) :
    fdiv x (val 0) = Fl.nan := by
  rcases hx with rfl | rfl
  · simp [fdiv]
  · rfl

/-- Claim C3: at every bin whose per-cell weights are finite and nonnegative
and sum to zero, the normalization in do_cf.py lines 143-145 evaluates (it is
a total function: numpy division never raises) and reports the bin with the
NaN sentinel in all three normalized columns. -/
theorem do_cf_zero_weight_bin_nan (rs : List CellResult) (nbins b : ℕ)
    (hb : b < nbins)
    (hlen : ∀ r ∈ rs, r.we.length = nbins ∧ r.rp.length = nbins ∧
      r.rt.length = nbins ∧ r.z.length = nbins)
    (hnonneg : ∀ r ∈ rs, ∃ q : ℚ, 0 ≤ q ∧ r.we.getD b (val 0) = val q)
    (hzero : fsum (rs.map fun r => r.we.getD b (val 0)) = val 0) :
    (do_cf_rp rs nbins).getD b (val 0) = Fl.nan ∧
    (do_cf_rt rs nbins).getD b (val 0) = Fl.nan ∧
    (do_cf_z rs nbins).getD b (val 0) = Fl.nan := by
  have hall : ∀ x ∈ rs.map fun r => r.we.getD b (val 0), x = val 0 := by
    refine weights_all_zero _ ?_ hzero
    intro x hx
    obtain ⟨r, hr, rfl⟩ := List.mem_map.mp hx
    exact hnonneg r hr
  have hwez : ∀ r ∈ rs, r.we.getD b (val 0) = val 0 := by
    intro r hr
    exact hall _ (List.mem_map.mpr ⟨r, hr, rfl⟩)
  have hnum : ∀ sel : CellResult → List Fl,
      fsum (rs.map fun r => fmul ((sel r).getD b (val 0)) (r.we.getD b (val 0))) = val 0 ∨
      fsum (rs.map fun r => fmul ((sel r).getD b (val 0)) (r.we.getD b (val 0))) = Fl.nan := by
    intro sel
    refine fsum_zero_or_nan _ ?_
    intro x hx
    obtain ⟨r, hr, rfl⟩ := List.mem_map.mp hx
    rw [hwez r hr]
    exact fmul_val_zero _
  have hmain : ∀ sel : CellResult → List Fl, (∀ r ∈ rs, (sel r).length = nbins) →
      (reduce_mean sel rs nbins).getD b (val 0) = Fl.nan := by
    intro sel hsel
    rw [reduce_mean_getD sel rs nbins b hb hsel (fun r hr => (hlen r hr).1), hzero]
    exact fdiv_zero_zero _ (hnum sel)
  exact ⟨hmain CellResult.rp (fun r hr => (hlen r hr).2.1),
    hmain CellResult.rt (fun r hr => (hlen r hr).2.2.1),
    hmain CellResult.z (fun r hr => (hlen r hr).2.2.2)⟩

/-- One cell whose single bin has zero weight. -/
def exZeroCells : List CellResult :=
  [⟨[val 0], [val 0], [val 2], [val 3], [val 4]⟩]

/-- Witness for C3 on a concrete zero-weight bin. -/
theorem do_cf_zero_weight_bin_nan_witness :
    (do_cf_rp exZeroCells 1).getD 0 (val 0) = Fl.nan ∧
    (do_cf_rt exZeroCells 1).getD 0 (val 0) = Fl.nan ∧
    (do_cf_z exZeroCells 1).getD 0 (val 0) = Fl.nan :=
  do_cf_zero_weight_bin_nan exZeroCells 1 0 (by decide) (by decide)
    (by
      intro r hr
      refine ⟨0, le_refl 0, ?_⟩
      rcases List.mem_singleton.mp hr with rfl
      rfl)
    (by
      show fadd (val 0) (val 0) = val 0
      simp [fadd])

/-! ### Task dispatch and completion order (claim C2)

do_cf.py lines 102-108 group the deltas into the dict `data` keyed by healpix
cell id; lines 127-133 build `cpu_data` by iterating `data.keys()` and call
`pool.map(corr_func, cpu_data.values())`.  The script runs under CPython 2,
whose dict enumerates keys in hash-table slot order: the initial table has 8
slots, the hash of a small non-negative int is the int itself, an insertion
probes from hash mod 8 with i := (5*i + perturb + 1) mod 8, perturb := perturb
div 32 on collision (lookdict of dictobject.c), and iteration visits slots in
index order.  This is a fixed function of the inserted keys, and nothing in
do_cf.py sorts them.  The model below covers the dicts the theorems
instantiate: at most five distinct keys, so no table resize occurs (CPython
resizes on the sixth insertion), and no deletions. -/

/-- One CPython 2 probe chain: return the slot holding key k or the first
empty slot, starting at k mod 8 (int hash = identity).  The probe sequence
visits every slot of the 8-slot table, so fuel 16 never runs out. -/
def find_slot_go (table : List (Option ℕ)) (k : ℕ) : ℕ → ℕ → ℕ → ℕ
  | 0, i, _ => i
  | fuel + 1, i, perturb =>
      match table.getD i none with
      | none => i
      | some k2 =>
          if k2 = k then i
          else find_slot_go table k fuel ((5 * i + perturb + 1) % 8) (perturb / 32)

/-- The slot CPython 2 lookdict selects for key k in the 8-slot table. -/
def find_slot (table : List (Option ℕ)) (k : ℕ) : ℕ :=
  find_slot_go table k 16 (k % 8) k

/-- Insert a key into the 8-slot table at its probed slot. -/
def dict_insert (table : List (Option ℕ)) (k : ℕ) : List (Option ℕ) :=
  table.set (find_slot table k) (some k)

/-- The slot array of a CPython 2 dict after inserting the given keys. -/
def py2_dict_slots (keys : List ℕ) : List (Option ℕ) :=
  keys.foldl dict_insert (List.replicate 8 none)

/-- CPython 2 dict key enumeration: occupied slots in slot order. -/
def pyDictKeys (keys : List ℕ) : List ℕ := (py2_dict_slots keys).filterMap id

/-- do_cf.py lines 102-108: the dict `data` as an association list in key
enumeration order, each bucket holding its deltas in append order. -/
def buildData {α : Type} (l : List (ℕ × α)) : List (ℕ × List α) :=
  (pyDictKeys (l.map Prod.fst)).map fun p =>
    (p, (l.filter (fun q => q.1 == p)).map Prod.snd)

/-- do_cf.py lines 127-129: the dispatch order of the per-cell tasks is the
key enumeration order of `data`. -/
def cpu_data_keys {α : Type} (l : List (ℕ × α)) : List ℕ := (buildData l).map Prod.fst

/-- Workers completing in schedule `order` (a permutation of the dispatch
indices): each completion carries its dispatch index and the task value. -/
def run_sched {β : Type} (f : ℕ → β) (order : List ℕ) : List (ℕ × β) :=
  order.map fun i => (i, f i)

/-- Pool.map reassembly: slot i of the result list receives the completion
tagged with dispatch index i, whatever position it completed in. -/
def gather {β : Type} (n : ℕ) (res : List (ℕ × β)) : List (Option β) :=
  (List.range n).map fun i => (res.find? (fun p => p.1 = i)).map Prod.snd

/-- Reassembling any complete schedule recovers the dispatch-order results. -/
theorem gather_run_sched {β : Type} (f : ℕ → β) (n : ℕ) (order : List ℕ)
    (h : order.Perm (List.range n)) :
    gather n (run_sched f order) = (List.range n).map fun i => some (f i) := by
  unfold gather
  refine List.map_congr_left ?_
  intro i hi
  have hmem : i ∈ order := (h.mem_iff).mpr hi
  have hsome : ((run_sched f order).find? (fun p => p.1 = i)).isSome := by
    rw [List.find?_isSome]
    exact ⟨(i, f i), List.mem_map.mpr ⟨i, hmem, rfl⟩, by simp⟩
  obtain ⟨x, hx⟩ := Option.isSome_iff_exists.mp hsome
  have hxmem : x ∈ run_sched f order := List.mem_of_find?_eq_some hx
  obtain ⟨j, _, rfl⟩ := List.mem_map.mp hxmem
  have hji : j = i := by simpa using List.find?_some hx
  subst hji
  simp [hx]

/-- The full scheduled pipeline of do_cf.py: group the deltas by cell, run one
task per cell (cellF abstracts pylya.cf.cf acting on the grouped data and one
cell id), let the tasks complete in schedule `order`, reassemble as pool.map
does, then reduce and build the two output tables as lines 136-156 do. -/
def do_cf_pipeline {α : Type} (l : List (ℕ × α))
    (cellF : List (ℕ × List α) → ℕ → CellResult) (nbins : ℕ) (order : List ℕ) :
    List Fl × List Fl × List Fl × (List (List Fl) × List (List Fl)) :=
  let dd := buildData l
  let f : ℕ → CellResult := fun i => cellF dd (dd.getD i (0, [])).1
  let rs := (gather dd.length (run_sched f order)).reduceOption
  (do_cf_rp rs nbins, do_cf_rt rs nbins, do_cf_z rs nbins, do_cf_table2 rs)

/-- Claim C2 (amended): for a fixed input, the final reduced result is
identical for every task completion schedule, because pool.map reassembles
per-task results by dispatch index; the summation order is therefore the
fixed key enumeration order of the data dict, regardless of scheduling. -/
theorem do_cf_pipeline_schedule_independent {α : Type} (l : List (ℕ × α))
    (cellF : List (ℕ × List α) → ℕ → CellResult) (nbins : ℕ) (order : List ℕ)
    (h : order.Perm (List.range (buildData l).length)) :
    do_cf_pipeline l cellF nbins order =
      do_cf_pipeline l cellF nbins (List.range (buildData l).length) := by
  unfold do_cf_pipeline
  simp only
  rw [gather_run_sched _ _ order h,
    gather_run_sched _ _ (List.range (buildData l).length) (List.Perm.refl _)]

/-- Witness for the amended C2: two cells whose dispatch order is [8, 1],
completing in reversed order, give the same output as completing in dispatch
order. -/
theorem do_cf_pipeline_schedule_independent_witness :
    do_cf_pipeline [(8, 0), (1, 0)] (fun _ _ => ⟨[], [], [], [], []⟩) 1 [1, 0] =
      do_cf_pipeline [(8, 0), (1, 0)] (fun _ _ => ⟨[], [], [], [], []⟩) 1
        (List.range (buildData [(8, 0), (1, 0)]).length) :=
  do_cf_pipeline_schedule_independent [(8, 0), (1, 0)] (fun _ _ => ⟨[], [], [], [], []⟩) 1
    [1, 0] (by decide)

/-- Claim C2 counterexample: the summation order is not ascending cell id.
Cell id 8 hashes to slot 8 mod 8 = 0 and cell id 1 to slot 1, so however the
two deltas arrive, the CPython 2 dict enumerates cell 8 before cell 1 and the
fixed merge order is [8, 1], which is not sorted ascending. -/
theorem cpu_data_keys_not_sorted :
    ¬ List.Sorted (· ≤ ·) (cpu_data_keys [(8, 0), (1, 0)]) := by
  have hkeys : cpu_data_keys [(8, 0), (1, 0)] = [8, 1] := by rfl
  rw [hkeys]
  intro h
  have := List.rel_of_sorted_cons h 1 (by simp)
  omega

/-! ## bin/do_cf.py : per-forest preprocessing (claim C7)

Source (do_cf.py lines 110-115), executed for every delta d:
        z = 10**d.ll/args.lambda_abs-1
        d.z = z
        d.r_comov = cosmo.r_comoving(z)
        d.we *= ((1+z)/(1+args.z_ref))**(cf.alpha-1)
        if not args.no_project:
            d.project()
cf.alpha is args.z_evol (line 81); args.no_project defaults to False (an
argparse store_true flag), so projection is on unless --no-project is given.
The delta class (pylya.data, not under src/) enters only through its mutable
arrays and its project method, kept abstract. -/

/-- A delta record as do_cf.py uses it: per-pixel log10-wavelength, weight,
derived redshift and derived comoving distance arrays. -/
structure Delta where
  ll : List ℝ
  we : List ℝ
  z : List ℝ
  r_comov : List ℝ

/-- do_cf.py lines 110-113: the three array mutations, in source order.
`rComoving` abstracts cosmo.r_comoving applied elementwise. -/
noncomputable def mutate_delta (lambdaAbs zRef alpha : ℝ) (rComoving : ℝ → ℝ)
    (d : Delta) : Delta :=
  let z := d.ll.map (fun x => (10 : ℝ) ^ x / lambdaAbs - 1)
  let d1 : Delta := { d with z := z }
  let d2 : Delta := { d1 with r_comov := d1.z.map rComoving }
  { d2 with
    we := List.zipWith (fun w zv => w * ((1 + zv) / (1 + zRef)) ^ (alpha - 1)) d2.we d2.z }

/-- do_cf.py lines 110-115: the whole per-delta preprocessing step, with the
abstract continuum-mode projection applied unless --no-project was given. -/
noncomputable def preprocess_delta (lambdaAbs zRef alpha : ℝ) (noProject : Bool)
    (rComoving : ℝ → ℝ) (project : Delta → Delta) (d : Delta) : Delta :=
  if noProject then mutate_delta lambdaAbs zRef alpha rComoving d
  else project (mutate_delta lambdaAbs zRef alpha rComoving d)

/-- Claim C7: preprocessing derives each pixel redshift as
10^(log-wavelength)/lambda_abs - 1, each comoving distance as
r_comoving(z), multiplies each weight by ((1+z)/(1+z_ref))^(alpha-1), and
applies the continuum-mode projection exactly when the toggle is enabled
(i.e. unless --no-project was given). -/
theorem preprocess_delta_spec (lambdaAbs zRef alpha : ℝ) (noProject : Bool)
    (rComoving : ℝ → ℝ) (project : Delta → Delta) (d : Delta)
    (hlen : d.we.length = d.ll.length) (i : ℕ) (hi : i < d.ll.length) :
    (mutate_delta lambdaAbs zRef alpha rComoving d).z.getD i 0
        = (10 : ℝ) ^ (d.ll.getD i 0) / lambdaAbs - 1
    ∧ (mutate_delta lambdaAbs zRef alpha rComoving d).r_comov.getD i 0
        = rComoving ((10 : ℝ) ^ (d.ll.getD i 0) / lambdaAbs - 1)
    ∧ (mutate_delta lambdaAbs zRef alpha rComoving d).we.getD i 0
        = d.we.getD i 0 *
          ((1 + ((10 : ℝ) ^ (d.ll.getD i 0) / lambdaAbs - 1)) / (1 + zRef)) ^ (alpha - 1)
    ∧ preprocess_delta lambdaAbs zRef alpha noProject rComoving project d
        = (if noProject then id else project) (mutate_delta lambdaAbs zRef alpha rComoving d) := by
  have hz : (mutate_delta lambdaAbs zRef alpha rComoving d).z
      = d.ll.map (fun x => (10 : ℝ) ^ x / lambdaAbs - 1) := rfl
  have hgz : ∀ j, j < d.ll.length →
      (d.ll.map (fun x => (10 : ℝ) ^ x / lambdaAbs - 1)).getD j 0
        = (10 : ℝ) ^ (d.ll.getD j 0) / lambdaAbs - 1 := by
    intro j hj
    rw [List.getD_eq_getElem _ _ (by simpa using hj), List.getD_eq_getElem _ _ hj,
      List.getElem_map]
  refine ⟨?_, ?_, ?_, ?_⟩
  · rw [hz]; exact hgz i hi
  · show ((d.ll.map (fun x => (10 : ℝ) ^ x / lambdaAbs - 1)).map rComoving).getD i 0
        = rComoving ((10 : ℝ) ^ (d.ll.getD i 0) / lambdaAbs - 1)
    rw [List.getD_eq_getElem _ _ (by simpa using hi), List.getElem_map,
      ← List.getD_eq_getElem (d.ll.map (fun x => (10 : ℝ) ^ x / lambdaAbs - 1)) 0
        (by simpa using hi), hgz i hi]
  · show (List.zipWith (fun w zv => w * ((1 + zv) / (1 + zRef)) ^ (alpha - 1)) d.we
        (d.ll.map (fun x => (10 : ℝ) ^ x / lambdaAbs - 1))).getD i 0
      = d.we.getD i 0 *
        ((1 + ((10 : ℝ) ^ (d.ll.getD i 0) / lambdaAbs - 1)) / (1 + zRef)) ^ (alpha - 1)
    rw [zipWith_getD_of_lt _ (0 : ℝ) (0 : ℝ) (0 : ℝ) _ _ i (by omega) (by simpa using hi),
      hgz i hi]
  · cases noProject <;> rfl

/-- Witness for C7 on a one-pixel delta. -/
theorem preprocess_delta_spec_witness :
    (mutate_delta 1 0 1 (fun x => x) ⟨[0], [2], [], []⟩).z.getD 0 0
      = (10 : ℝ) ^ ((([0] : List ℝ).getD 0 0 : ℝ)) / 1 - 1 :=
  (preprocess_delta_spec 1 0 1 true (fun x => x) (fun d => d) ⟨[0], [2], [], []⟩
    (by simp) 0 (by simp)).1

/-! ## delta_extraction/data.py : forest filtering (claim C5)

Source (data.py lines 71-108).  Both filters build the list of indices of
rejected forests by enumerating the list in order, then delete them with
`for index in sorted(remove_indexs, reverse=True): del self.forests[index]`.
filter_forests rejects a forest when flux.size < min_num_pix, or otherwise
when np.isnan((flux * ivar).sum()); filter_bad_cont_forests rejects when
bad_continuum_reason is not None. -/

/-- A forest as the filters see it: flux and ivar arrays and the
bad-continuum marker. -/
structure Forest where
  flux : List Fl
  ivar : List Fl
  bad_continuum_reason : Option String

/-- The enumeration loop of data.py lines 74-80 / 92-103: indices (from
`start`) of the elements the predicate rejects, in ascending order. -/
def remove_indexs {α : Type} (p : α → Bool) : List α → ℕ → List ℕ
  | [], _ => []
  | f :: t, i => if p f then i :: remove_indexs p t (i + 1) else remove_indexs p t (i + 1)

/-- The deletion loop of data.py lines 82-83 / 105-106: delete the given
indices one by one (they are passed in descending order). -/
def del_descending {α : Type} (l : List α) (idxs : List ℕ) : List α :=
  idxs.foldl (fun acc i => acc.eraseIdx i) l

/-- The shared shape of both filters: collect rejected indices ascending,
sort descending (= reverse), delete. -/
def data_filter {α : Type} (p : α → Bool) (l : List α) : List α :=
  del_descending l (remove_indexs p l 0).reverse

/-- data.py lines 92-103: the rejection test of filter_forests.  The
`elif` chain rejects iff flux.size < min_num_pix or the summed flux*ivar
is NaN. -/
def forest_rejected (minNumPix : ℕ) (f : Forest) : Bool :=
  decide (f.flux.length < minNumPix) || isnan (fsum (ewMul f.flux f.ivar))

/-- data.py Data.filter_forests. -/
def filter_forests (minNumPix : ℕ) (l : List Forest) : List Forest :=
  data_filter (forest_rejected minNumPix) l

/-- data.py Data.filter_bad_cont_forests. -/
def filter_bad_cont_forests (l : List Forest) : List Forest :=
  data_filter (fun f => f.bad_continuum_reason.isSome) l

/-- Shifting the start index shifts every collected index. -/
theorem remove_indexs_shift {α : Type} (p : α → Bool) (l : List α) (i : ℕ) :
    remove_indexs p l (i + 1) = (remove_indexs p l i).map (· + 1) := by
  induction l generalizing i with
  | nil => simp [remove_indexs]
  | cons a t ih =>
      by_cases hp : p a <;> simp [remove_indexs, hp, ih]

/-- Deleting only shifted (positive) indices leaves the head in place. -/
theorem del_descending_shift {α : Type} (a : α) (t : List α) (idxs : List ℕ) :
    del_descending (a :: t) (idxs.map (· + 1)) = a :: del_descending t idxs := by
  induction idxs generalizing t with
  | nil => rfl
  | cons i u ih =>
      simp only [del_descending, List.map_cons, List.foldl_cons, List.eraseIdx_cons_succ]
      exact ih (t.eraseIdx i)

/-- The enumerate-then-delete-descending procedure of data.py is extensional
filtering: it removes exactly the rejected elements and keeps all others in
their original relative order. -/
theorem data_filter_eq_filter {α : Type} (p : α → Bool) (l : List α) :
    data_filter p l = l.filter (fun x => ! p x) := by
  induction l with
  | nil => rfl
  | cons a t ih =>
      have hshift : del_descending (a :: t) ((remove_indexs p t 0).map (· + 1)).reverse
          = a :: data_filter p t := by
        rw [← List.map_reverse]
        exact del_descending_shift a t (remove_indexs p t 0).reverse
      by_cases hp : p a
      · have h1 : remove_indexs p (a :: t) 0 = 0 :: (remove_indexs p t 0).map (· + 1) := by
          simp [remove_indexs, hp, remove_indexs_shift p t 0]
        rw [data_filter, h1, List.reverse_cons, del_descending, List.foldl_append]
        rw [show List.foldl (fun acc i => acc.eraseIdx i) (a :: t)
            ((remove_indexs p t 0).map (· + 1)).reverse = a :: data_filter p t from hshift]
        simp only [List.foldl_cons, List.foldl_nil, List.eraseIdx_cons_zero]
        rw [ih]
        simp [hp]
      · have h1 : remove_indexs p (a :: t) 0 = (remove_indexs p t 0).map (· + 1) := by
          simp [remove_indexs, hp, remove_indexs_shift p t 0]
        rw [data_filter, h1, hshift, ih]
        simp [hp]

/-- Claim C5: filter_forests removes exactly the forests with fewer than
min_num_pix flux pixels or NaN summed flux*ivar; filter_bad_cont_forests
removes exactly the forests whose bad_continuum_reason is set; all other
forests are kept in their original relative order (both filters equal
List.filter with the complementary predicate). -/
theorem data_filters_spec (minNumPix : ℕ) (l : List Forest) :
    filter_forests minNumPix l
      = l.filter (fun f =>
          !(decide (f.flux.length < minNumPix) || isnan (fsum (ewMul f.flux f.ivar))))
    ∧ filter_bad_cont_forests l = l.filter (fun f => f.bad_continuum_reason.isNone) := by
  constructor
  · exact data_filter_eq_filter (forest_rejected minNumPix) l
  · rw [filter_bad_cont_forests, data_filter_eq_filter]
    refine List.filter_congr ?_
    intro f _
    cases f.bad_continuum_reason <;> rfl

/-! ## delta_extraction config parsing (claim C6)

Source: data.py Data.__init__ (lines 48-69) and desi_data.py
DesiData.__init__/_parse_config (lines 62-125).  A configparser section maps
each key to an optional typed value (a missing key reads as None).  The
external ABSORBER_IGM table (picca.delta_extraction.utils, not under src/) is
an abstract map from absorber names to wavelengths; the defaults dict of
data.py sets "lambda abs IGM" to ABSORBER_IGM.get("LYA"). -/

/-- The configuration keys read by Data.__init__. -/
structure DataConfig where
  analysis_type : Option String
  absorber_igm : Option String
  min_num_pix : Option ℕ

/-- The attributes set by a successful Data.__init__ (lambda_abs_igm is the
Pk1dForest class attribute, none when the BAO 3D branch is not taken). -/
structure DataState where
  analysis_type : String
  lambda_abs_igm : Option ℚ
  min_num_pix : ℕ
deriving DecidableEq

/-- data.py line 20. -/
def accepted_analysis_type : List String := ["BAO 3D", "PK 1D"]

/-- data.py Data.__init__ lines 48-69: fill analysis type from the default
"BAO 3D", raise DataError when it is not accepted, set the absorber
wavelength in the BAO 3D branch (default absorber LYA), fill the minimum
pixel count from the default 50. -/
def data_init (absMap : String → Option ℚ) (cfg : DataConfig) :
    Except String DataState :=
  let analysisType := cfg.analysis_type.getD "BAO 3D"
  if analysisType ∈ accepted_analysis_type then
    Except.ok ⟨analysisType,
      if analysisType = "BAO 3D" then absMap (cfg.absorber_igm.getD "LYA") else none,
      cfg.min_num_pix.getD 50⟩
  else Except.error "Invalid argument analysis type required by DesiData"

/-- The configuration keys read by DesiData._parse_config, together with the
keys its superclass reads. -/
structure DesiConfig extends DataConfig where
  delta_lambda : Option ℚ
  input_directory : Option String
  lambda_max : Option ℚ
  lambda_max_rest_frame : Option ℚ
  lambda_min : Option ℚ
  lambda_min_rest_frame : Option ℚ
  mini_sv : Option Bool

/-- The attributes set by a successful DesiData._parse_config. -/
structure DesiState where
  delta_lambda : ℚ
  input_directory : String
  lambda_max : ℚ
  lambda_max_rest_frame : ℚ
  lambda_min : ℚ
  lambda_min_rest_frame : ℚ
  mini_sv : Bool
deriving DecidableEq

/-- desi_data.py _parse_config lines 93-125: fill every optional key from the
defaults dict (delta lambda 1.0, lambda max 5500.0, lambda max rest frame
1200.0, lambda min 3600.0, lambda min rest frame 1040.0, mini SV False);
raise DataError when "input directory" is missing. -/
def desi_parse_config (cfg : DesiConfig) : Except String DesiState :=
  match cfg.input_directory with
  | none => Except.error "Missing argument input directory required by SdssData"
  | some dir =>
      Except.ok ⟨cfg.delta_lambda.getD 1, dir, cfg.lambda_max.getD 5500,
        cfg.lambda_max_rest_frame.getD 1200, cfg.lambda_min.getD 3600,
        cfg.lambda_min_rest_frame.getD 1040, cfg.mini_sv.getD false⟩

/-- desi_data.py DesiData.__init__ lines 62-91: run the superclass
initializer, parse the configuration, and only then read the spectra
(read_from_desi or read_from_minisv_desi, abstracted by `read`). -/
def desi_data_init (absMap : String → Option ℚ) (cfg : DesiConfig)
    (read : DesiState → List Forest) :
    Except String (DataState × DesiState × List Forest) := do
  let ds ← data_init absMap cfg.toDataConfig
  let st ← desi_parse_config cfg
  pure (ds, st, read st)

/-- Claim C6: configuration errors are raised at construction time, before
any data is read: an unaccepted analysis type makes Data.__init__ raise
DataError; a missing input directory makes DesiData initialization fail with
DataError and with a result that does not depend on the reading function (no
spectra are read); and a configuration leaving every optional key unset is
filled with the documented defaults. -/
theorem config_validation_spec (absMap : String → Option ℚ) (cfg : DesiConfig)
    (s dir : String) :
    (cfg.analysis_type = some s → s ∉ accepted_analysis_type →
      data_init absMap cfg.toDataConfig
        = Except.error "Invalid argument analysis type required by DesiData")
    ∧ (cfg.input_directory = none →
        ∀ read1 read2 : DesiState → List Forest,
          desi_data_init absMap cfg read1 = desi_data_init absMap cfg read2
          ∧ ∃ msg, desi_data_init absMap cfg read1 = Except.error msg)
    ∧ (cfg.analysis_type = none → cfg.absorber_igm = none → cfg.min_num_pix = none →
        cfg.delta_lambda = none → cfg.input_directory = some dir →
        cfg.lambda_max = none → cfg.lambda_max_rest_frame = none →
        cfg.lambda_min = none → cfg.lambda_min_rest_frame = none →
        cfg.mini_sv = none →
        data_init absMap cfg.toDataConfig = Except.ok ⟨"BAO 3D", absMap "LYA", 50⟩
        ∧ desi_parse_config cfg = Except.ok ⟨1, dir, 5500, 1200, 3600, 1040, false⟩) := by
  refine ⟨?_, ?_, ?_⟩
  · intro hs hacc
    unfold data_init
    rw [hs]
    simp only [Option.getD_some]
    rw [if_neg (by simpa using hacc)]
  · intro hdir read1 read2
    unfold desi_data_init
    cases hinit : data_init absMap cfg.toDataConfig with
    | error e => exact ⟨rfl, ⟨e, rfl⟩⟩
    | ok ds =>
        have hparse : desi_parse_config cfg
            = Except.error "Missing argument input directory required by SdssData" := by
          unfold desi_parse_config
          rw [hdir]
        refine ⟨?_, ⟨"Missing argument input directory required by SdssData", ?_⟩⟩ <;>
          simp only [hparse] <;> rfl
  · intro h1 h2 h3 h4 h5 h6 h7 h8 h9 h10
    constructor
    · unfold data_init
      have : cfg.toDataConfig.analysis_type = none := h1
      rw [this, h2]
      simp [accepted_analysis_type, h3]
    · unfold desi_parse_config
      rw [h5, h4, h6, h7, h8, h9, h10]
      rfl

/-- Witness for C6: a configuration with analysis type "BAO 2D" is rejected
by Data.__init__ with a DataError. -/
theorem config_validation_spec_witness :
    data_init (fun _ => none)
        (DesiConfig.toDataConfig ⟨⟨some "BAO 2D", none, none⟩, none, none, none, none, none, none, none⟩)
      = Except.error "Invalid argument analysis type required by DesiData" :=
  (config_validation_spec (fun _ => none)
      ⟨⟨some "BAO 2D", none, none⟩, none, none, none, none, none, none, none⟩
      "BAO 2D" "dir").1 rfl (by decide)

/-! ## delta_extraction/data.py : Data.find_nside (claim C9)

Source (data.py lines 110-131):
        nside = 256
        target_mean_num_obj = 500
        healpixs = healpy.ang2pix(nside, np.pi / 2 - dec, ra)
        mean_num_obj = len(healpixs) / len(np.unique(healpixs))
        nside_min = 8
        while mean_num_obj < target_mean_num_obj and nside >= nside_min:
            nside //= 2
            healpixs = healpy.ang2pix(nside, np.pi / 2 - dec, ra)
            mean_num_obj = len(healpixs) / len(np.unique(healpixs))
        ...
        for forest, healpix in zip(self.forests, healpixs):
            forest.healpix = healpix
healpy.ang2pix is the external spatial indexer, abstracted as `pixfun nside`
applied to each forest coordinate.  `/` is Python 3 true division, modelled
in ℚ (for an empty forest list Python would raise ZeroDivisionError; the
claim and the theorems below only concern non-empty lists). -/

/-- data.py lines 120/125: len(healpixs) / len(np.unique(healpixs)). -/
def mean_num_obj (pix : List ℕ) : ℚ := (pix.length : ℚ) / (pix.dedup.length : ℚ)

/-- data.py lines 122-125: the halving loop, carrying the current nside and
the healpix array computed at that nside. -/
def find_nside_loop {α : Type} (pixfun : ℕ → α → ℕ) (coords : List α)
    (nside : ℕ) (pix : List ℕ) : ℕ × List ℕ :=
  if h : mean_num_obj pix < 500 ∧ 8 ≤ nside then
    find_nside_loop pixfun coords (nside / 2) (coords.map (pixfun (nside / 2)))
  else (nside, pix)
termination_by nside
decreasing_by omega

/-- data.py Data.find_nside: the final nside together with the healpix array
assigned to the forests. -/
def find_nside {α : Type} (pixfun : ℕ → α → ℕ) (coords : List α) : ℕ × List ℕ :=
  find_nside_loop pixfun coords 256 (coords.map (pixfun 256))

/-- The nsides the loop can stop at. -/
def nside_values : List ℕ := [4, 8, 16, 32, 64, 128, 256]

/-- The halving loop keeps the invariant that the carried healpix array was
computed at the carried nside. -/
theorem find_nside_loop_inv {α : Type} (pixfun : ℕ → α → ℕ) (coords : List α) :
    ∀ nside pix, pix = coords.map (pixfun nside) →
      (find_nside_loop pixfun coords nside pix).2
        = coords.map (pixfun (find_nside_loop pixfun coords nside pix).1) := by
  intro nside
  induction nside using Nat.strong_induction_on with
  | _ nside ih =>
      intro pix hpix
      rw [find_nside_loop]
      split
      · next h => exact ih (nside / 2) (by omega) _ rfl
      · simpa using hpix

/-- The halving loop stays inside the power-of-two ladder 256 ... 4. -/
theorem find_nside_loop_mem {α : Type} (pixfun : ℕ → α → ℕ) (coords : List α) :
    ∀ nside, nside ∈ nside_values →
      ∀ pix, (find_nside_loop pixfun coords nside pix).1 ∈ nside_values := by
  have hstep : ∀ n ∈ nside_values, 8 ≤ n → n / 2 ∈ nside_values := by decide
  intro nside
  induction nside using Nat.strong_induction_on with
  | _ nside ih =>
      intro hmem pix
      rw [find_nside_loop]
      split
      · next h => exact ih (nside / 2) (by omega) (hstep nside hmem h.2) _
      · exact hmem

/-- A single forest always maps to one occupied pixel, so the mean occupancy
is 1 and the loop halves all the way down to 4, one step below the stated
minimum nside of 8. -/
theorem find_nside_reaches_4 :
    find_nside (fun _ _ => 0) ([0] : List ℕ) = (4, [0]) := by
  have hm : mean_num_obj [0] = 1 := by
    norm_num [mean_num_obj, List.dedup]
  rw [find_nside]
  rw [find_nside_loop]; rw [dif_pos (by rw [List.map_singleton, hm]; norm_num)]
  rw [find_nside_loop]; rw [dif_pos (by rw [List.map_singleton, hm]; norm_num)]
  rw [find_nside_loop]; rw [dif_pos (by rw [List.map_singleton, hm]; norm_num)]
  rw [find_nside_loop]; rw [dif_pos (by rw [List.map_singleton, hm]; norm_num)]
  rw [find_nside_loop]; rw [dif_pos (by rw [List.map_singleton, hm]; norm_num)]
  rw [find_nside_loop]; rw [dif_pos (by rw [List.map_singleton, hm]; norm_num)]
  rw [find_nside_loop]; rw [dif_neg (by norm_num)]
  norm_num

/-- Claim C9: for every (in particular every non-empty) forest list the nside
search terminates (find_nside is a total function) with a final nside in
{4, 8, 16, 32, 64, 128, 256} — one halving below the stated minimum of 8 is
reachable — and every forest is assigned the healpix id computed by the
spatial indexer at that single final nside. -/
theorem find_nside_spec {α : Type} (pixfun : ℕ → α → ℕ) (coords : List α)
    (_hne : coords ≠ []) :
    (find_nside pixfun coords).1 ∈ nside_values
    ∧ (find_nside pixfun coords).2
        = coords.map (pixfun (find_nside pixfun coords).1)
    ∧ find_nside (fun (_ : ℕ) (_ : ℕ) => 0) ([0] : List ℕ) = (4, [0]) := by
  refine ⟨?_, ?_, find_nside_reaches_4⟩
  · exact find_nside_loop_mem pixfun coords 256 (by decide) _
  · exact find_nside_loop_inv pixfun coords 256 _ rfl

/-- Witness for C9: the concrete single-forest input, which ends at nside 4. -/
theorem find_nside_spec_witness :
    (find_nside (fun _ _ => 0) ([0] : List ℕ)).1 ∈ nside_values :=
  (find_nside_spec (fun _ _ => 0) ([0] : List ℕ) (by decide)).1

/-! ## desi_data.py : spectra sanitization in read_from_desi (claim C10)

Source (desi_data.py lines 169-175), per color band:
        spec["FLUX"] = hdul[f"..._FLUX"].read()
        spec["IVAR"] = (hdul[f"..._IVAR"].read() *
                        (hdul[f"..._MASK"].read() == 0))
        w = np.isnan(spec["FLUX"]) | np.isnan(spec["IVAR"])
        for key in ["FLUX", "IVAR"]:
            spec[key][w] = 0.
numpy multiplies the float ivar array by the boolean indicator (mask == 0)
as 1.0/0.0; note NaN * 0.0 is NaN in IEEE, so a NaN file ivar survives the
masking and is then caught and zeroed by the isnan pass. -/

/-- desi_data.py lines 171-175: the sanitized (flux, ivar) pair stored in
spectrographs_data from the file arrays flux, ivar, mask. -/
def sanitize_spec (flux ivar : List Fl) (mask : List ℤ) : List Fl × List Fl :=
  let ivar1 := List.zipWith (fun iv m => fmul iv (if m = 0 then val 1 else val 0)) ivar mask
  let w := List.zipWith (fun f iv => isnan f || isnan iv) flux ivar1
  (List.zipWith (fun f b => if b then val 0 else f) flux w,
   List.zipWith (fun iv b => if b then val 0 else iv) ivar1 w)

/-- The sanitization step cited by claim C10: after sanitization, for every
pixel the stored ivar is the file ivar times the (mask == 0) indicator except
that pixels whose flux or masked ivar is NaN have both flux and ivar set to
0; consequently neither output array contains a NaN. -/
theorem sanitize_spec_no_nan (flux ivar : List Fl) (mask : List ℤ) (n i : ℕ)
    (hf : flux.length = n) (hiv : ivar.length = n) (hm : mask.length = n)
    (hi : i < n) :
    (isnan ((sanitize_spec flux ivar mask).1.getD i (val 0)) = false)
    ∧ (isnan ((sanitize_spec flux ivar mask).2.getD i (val 0)) = false)
    ∧ ((sanitize_spec flux ivar mask).2.getD i (val 0)
        = (let iv1 := fmul (ivar.getD i (val 0))
              (if mask.getD i 0 = 0 then val 1 else val 0);
           if isnan (flux.getD i (val 0)) || isnan iv1 then val 0 else iv1))
    ∧ ((sanitize_spec flux ivar mask).1.getD i (val 0)
        = (let iv1 := fmul (ivar.getD i (val 0))
              (if mask.getD i 0 = 0 then val 1 else val 0);
           if isnan (flux.getD i (val 0)) || isnan iv1 then val 0
           else flux.getD i (val 0))) := by
  have hiv1len : (List.zipWith (fun iv m => fmul iv (if m = 0 then val 1 else val 0))
      ivar mask).length = n := by
    simp [List.length_zipWith, hiv, hm]
  have hiv1 : (List.zipWith (fun iv m => fmul iv (if m = 0 then val 1 else val 0))
      ivar mask).getD i (val 0)
      = fmul (ivar.getD i (val 0)) (if mask.getD i 0 = 0 then val 1 else val 0) :=
    zipWith_getD_of_lt _ (val 0) (0 : ℤ) (val 0) ivar mask i (by omega) (by omega)
  have hwlen : (List.zipWith (fun f iv => isnan f || isnan iv) flux
      (List.zipWith (fun iv m => fmul iv (if m = 0 then val 1 else val 0)) ivar mask)).length
      = n := by
    simp [List.length_zipWith, hf, hiv1len]
  have hw : (List.zipWith (fun f iv => isnan f || isnan iv) flux
      (List.zipWith (fun iv m => fmul iv (if m = 0 then val 1 else val 0)) ivar mask)).getD i false
      = (isnan (flux.getD i (val 0)) ||
          isnan (fmul (ivar.getD i (val 0)) (if mask.getD i 0 = 0 then val 1 else val 0))) := by
    rw [zipWith_getD_of_lt _ (val 0) (val 0) false flux _ i (by omega) (by omega), hiv1]
  have hout1 : (sanitize_spec flux ivar mask).1.getD i (val 0)
      = (if (isnan (flux.getD i (val 0)) ||
            isnan (fmul (ivar.getD i (val 0)) (if mask.getD i 0 = 0 then val 1 else val 0)))
         then val 0 else flux.getD i (val 0)) := by
    have h := zipWith_getD_of_lt (fun f (b : Bool) => if b then val 0 else f)
      (val 0) false (val 0) flux
      (List.zipWith (fun f iv => isnan f || isnan iv) flux
        (List.zipWith (fun iv m => fmul iv (if m = 0 then val 1 else val 0)) ivar mask))
      i (by omega) (by omega)
    rw [hw] at h
    exact h
  have hout2 : (sanitize_spec flux ivar mask).2.getD i (val 0)
      = (if (isnan (flux.getD i (val 0)) ||
            isnan (fmul (ivar.getD i (val 0)) (if mask.getD i 0 = 0 then val 1 else val 0)))
         then val 0
         else fmul (ivar.getD i (val 0)) (if mask.getD i 0 = 0 then val 1 else val 0)) := by
    have h := zipWith_getD_of_lt (fun iv (b : Bool) => if b then val 0 else iv)
      (val 0) false (val 0)
      (List.zipWith (fun iv m => fmul iv (if m = 0 then val 1 else val 0)) ivar mask)
      (List.zipWith (fun f iv => isnan f || isnan iv) flux
        (List.zipWith (fun iv m => fmul iv (if m = 0 then val 1 else val 0)) ivar mask))
      i (by omega) (by omega)
    rw [hw, hiv1] at h
    exact h
  refine ⟨?_, ?_, by rw [hout2], by rw [hout1]⟩
  · rw [hout1]
    by_cases hc : (isnan (flux.getD i (val 0)) ||
        isnan (fmul (ivar.getD i (val 0)) (if mask.getD i 0 = 0 then val 1 else val 0))) = true
    · rw [if_pos hc]; rfl
    · rw [if_neg hc]
      have := Bool.or_eq_false_iff.mp (Bool.not_eq_true _ |>.mp hc)
      exact this.1
  · rw [hout2]
    by_cases hc : (isnan (flux.getD i (val 0)) ||
        isnan (fmul (ivar.getD i (val 0)) (if mask.getD i 0 = 0 then val 1 else val 0))) = true
    · rw [if_pos hc]; rfl
    · rw [if_neg hc]
      have := Bool.or_eq_false_iff.mp (Bool.not_eq_true _ |>.mp hc)
      exact this.2

/-- The sanitization at a concrete pixel whose file ivar is NaN and masked
out: both sanitized outputs are NaN-free. -/
theorem sanitize_spec_no_nan_witness :
    (isnan ((sanitize_spec [val 1] [Fl.nan] [3]).1.getD 0 (val 0)) = false)
    ∧ (isnan ((sanitize_spec [val 1] [Fl.nan] [3]).2.getD 0 (val 0)) = false) :=
  ⟨(sanitize_spec_no_nan [val 1] [Fl.nan] [3] 1 0 (by decide) (by decide) (by decide)
      (by decide)).1,
   (sanitize_spec_no_nan [val 1] [Fl.nan] [3] 1 0 (by decide) (by decide) (by decide)
      (by decide)).2.1⟩

/-! ### The construction path of read_from_desi (claim C10, continued)

Source (desi_data.py lines 162-217).  The per-color dict built at lines
166-176 stores exactly the keys "WAVELENGTHL" (line 169, as written in this
source), "FLUX" and "IVAR".  The forest construction then reads
        ivar = spec['IV'][w_t].copy()        (line 205)
        flux = spec['FL'][w_t].copy()        (line 206)
        forest = DesiForest(**{"lambda": spec['WAVELENGTH'], ...})  (line 208)
A Python dict subscript with a missing key raises KeyError, so the first
quasar matched in any file aborts read_from_desi before any DesiForest is
constructed from the sanitized arrays. -/

/-- desi_data.py lines 166-176: the per-color entry of spectrographs_data,
with the keys exactly as the source stores them. -/
def spectrographs_data_entry (wave flux ivar : List Fl) (mask : List ℤ) :
    List (String × List Fl) :=
  [("WAVELENGTHL", wave),
   ("FLUX", (sanitize_spec flux ivar mask).1),
   ("IVAR", (sanitize_spec flux ivar mask).2)]

/-- Python dict subscript: the value, or none meaning KeyError. -/
def dict_get (d : List (String × List Fl)) (k : String) : Option (List Fl) :=
  d.lookup k

/-- desi_data.py lines 204-217: the arrays the DesiForest construction reads
from a spectrographs_data entry, under the keys the source actually uses. -/
def build_forest_from_spec (d : List (String × List Fl)) : Except String Forest :=
  match dict_get d "IV", dict_get d "FL", dict_get d "WAVELENGTH" with
  | some ivar, some flux, some _ => Except.ok ⟨flux, ivar, none⟩
  | _, _, _ => Except.error "KeyError"

/-- Claim C10 (code bug): the sanitization of lines 169-175 is exactly as
claimed and leaves no NaN (sanitize_spec_no_nan), but the claimed data flow
into constructed forests does not exist in this source: for every input
spectrum, the construction reads the keys IV, FL and WAVELENGTH, none of
which the per-color dict stores (it holds IVAR, FLUX and the misspelled
WAVELENGTHL), so building a forest from a spectrographs_data entry always
raises KeyError and no forest is ever constructed from the sanitized
arrays. -/
theorem build_forest_always_keyerror (wave flux ivar : List Fl) (mask : List ℤ) :
    build_forest_from_spec (spectrographs_data_entry wave flux ivar mask)
      = Except.error "KeyError" := by
  rfl
